import Mathlib

/-!
Shallow embedding of the microcap-scout-bot core (src/trade_engine.py,
src/data_sources.py) for checking the natural-language specification.

Python floats are modelled as rationals, dates as natural-number day
identifiers, and the network/brokerage environment as explicit records of
per-call responses (an `Option`/`Bool` field models an exception or failure
of the corresponding external call).
-/

namespace Microcap

/-! ## Trade engine (src/trade_engine.py) -/

/-- Engine configuration captured in `TradeEngine.__init__`.  `hasApi`
models whether Alpaca credentials were present (`self.api` is not `None`). -/
structure EngineConfig where
  daily_budget : ℚ
  per_trade_budget : ℚ
  max_trades : ℕ
  stop_loss : ℚ
  take_profit : ℚ
  max_positions : ℕ
  drawdown_limit_percent : ℚ
  hasApi : Bool
deriving DecidableEq, Repr

/-- The `self.trade_stats` dict of `TradeEngine`. -/
structure TradeStats where
  date : ℕ
  used_capital : ℚ
  trades : ℕ
  pnl : ℚ
  stopped : Bool
deriving DecidableEq, Repr

/-- The fresh statistics dict built in `TradeEngine.__init__` and in
`reset_if_new_day`. -/
def initStats (today : ℕ) : TradeStats :=
  { date := today, used_capital := 0, trades := 0, pnl := 0, stopped := false }

/-- `TradeEngine.reset_if_new_day`. -/
def reset_if_new_day (today : ℕ) (s : TradeStats) : TradeStats :=
  if s.date ≠ today then initStats today else s

/-- Responses of the brokerage API during a single `attempt_trade` call.
`positions = none` models `list_positions` raising; `submitOk = false`
models `submit_order` raising with message `submitErrMsg`; `account = none`
models `get_account` raising inside `_log_pnl`; `fileOk = false` models the
journal file write raising. -/
structure BrokerEnv where
  positions : Option ℕ
  submitOk : Bool
  submitErrMsg : String
  account : Option (ℚ × ℚ)
  fileOk : Bool
deriving DecidableEq, Repr

/-- The dict returned by `attempt_trade` (and by `_can_trade` for the
rejection cases), abstracted to its discriminating content. -/
inductive TradeOutcome where
  | simulated
  | haltedReject
  | maxTradesReject
  | dailyLimitReject
  | maxPositionsReject
  | perTradeReject
  | submitError (msg : String)
  | orderPlaced (qty : ℤ) (price tp sl : ℚ)
deriving DecidableEq, Repr

/-- The `error` string of each rejection dict in the Python source. -/
def TradeOutcome.reason : TradeOutcome → Option String
  | .haltedReject => some "Daily drawdown limit reached"
  | .maxTradesReject => some "Daily trade count exceeded"
  | .dailyLimitReject => some "Daily limit reached"
  | .maxPositionsReject => some "Max concurrent positions reached"
  | .perTradeReject => some "Trade value exceeds per-trade budget"
  | .submitError msg => some msg
  | _ => none

def TradeOutcome.isOrderPlaced : TradeOutcome → Bool
  | .orderPlaced _ _ _ _ => true
  | _ => false

/-- One line of the append-only PnL journal written by `_log_pnl`. -/
structure JournalEntry where
  stats : TradeStats
deriving DecidableEq, Repr

/-- `TradeEngine._log_pnl`: updates `pnl`, trips `stopped` on drawdown and
appends a journal line.  The whole body is wrapped in `try`: if
`get_account` raises (`acct = none`) nothing is mutated; if only the file
write raises the stats mutations stand but no line is written. -/
def log_pnl (cfg : EngineConfig) (acct : Option (ℚ × ℚ)) (fileOk : Bool)
    (s : TradeStats) : TradeStats × Option JournalEntry :=
  if cfg.hasApi = false then (s, none)
  else
    match acct with
    | none => (s, none)
    | some (equity, lastEquity) =>
        let daily_pnl := equity - lastEquity
        let s1 := { s with pnl := daily_pnl }
        let s2 := if daily_pnl < -cfg.daily_budget * cfg.drawdown_limit_percent
                  then { s1 with stopped := true } else s1
        (s2, if fileOk then some ⟨s2⟩ else none)

/-- `TradeEngine._can_trade`: returns the rejection dict, or `none` when
the trade may proceed.  `positions = none` models `list_positions`
raising, which the source catches and ignores. -/
def can_trade (cfg : EngineConfig) (positions : Option ℕ) (trade_value : ℚ)
    (s : TradeStats) : Option TradeOutcome :=
  if s.stopped then some .haltedReject
  else if cfg.max_trades ≤ s.trades then some .maxTradesReject
  else if cfg.daily_budget < s.used_capital + trade_value then some .dailyLimitReject
  else if cfg.hasApi then
    match positions with
    | some n => if cfg.max_positions ≤ n then some .maxPositionsReject else none
    | none => none
  else none

/-- `qty = max(1, int(self.per_trade_budget // price))` of `attempt_trade`. -/
def qtyOf (cfg : EngineConfig) (price : ℚ) : ℤ :=
  max 1 ⌊cfg.per_trade_budget / price⌋

/-- Python `round(x, 2)` (round half to even), on the rational model. -/
def roundHalfEven (q : ℚ) : ℤ :=
  let f := ⌊q⌋
  if q - f < 1/2 then f
  else if (1:ℚ)/2 < q - f then f + 1
  else if f % 2 = 0 then f else f + 1

def round2 (q : ℚ) : ℚ := (roundHalfEven (q * 100) : ℚ) / 100

/-- `trade_value = price * qty` of `attempt_trade`. -/
def tradeValueOf (cfg : EngineConfig) (price : ℚ) : ℚ :=
  price * (qtyOf cfg price : ℚ)

/-- The statistics dict right after a successful `submit_order`:
`used_capital += trade_value; trades += 1`. -/
def fillStats (cfg : EngineConfig) (price : ℚ) (s0 : TradeStats) : TradeStats :=
  { s0 with used_capital := s0.used_capital + tradeValueOf cfg price,
            trades := s0.trades + 1 }

/-- `TradeEngine.attempt_trade`.  Returns the statistics dict after the
call, the result dict, and the journal line appended (if any). -/
def attempt_trade (cfg : EngineConfig) (env : BrokerEnv) (today : ℕ)
    (price : ℚ) (s : TradeStats) : TradeStats × TradeOutcome × Option JournalEntry :=
  let s0 := reset_if_new_day today s
  if cfg.hasApi = false then (s0, .simulated, none)
  else
    let qty := qtyOf cfg price
    let trade_value := tradeValueOf cfg price
    if qty ≤ 0 ∨ cfg.per_trade_budget < trade_value then (s0, .perTradeReject, none)
    else
      match can_trade cfg env.positions trade_value s0 with
      | some rej => (s0, rej, none)
      | none =>
          if env.submitOk = false then (s0, .submitError env.submitErrMsg, none)
          else
            let tp := round2 (price * (1 + cfg.take_profit))
            let sl := round2 (price * (1 - cfg.stop_loss))
            let sj := log_pnl cfg env.account env.fileOk (fillStats cfg price s0)
            (sj.1, .orderPlaced qty price tp sl, sj.2)

/-- One `attempt_trade` call and its environment, for reasoning about
sequences of calls. -/
structure CallInput where
  env : BrokerEnv
  today : ℕ
  price : ℚ
deriving Repr

/-- The statistics dict after a sequence of `attempt_trade` calls. -/
def runTrades (cfg : EngineConfig) (calls : List CallInput) (s : TradeStats) : TradeStats :=
  calls.foldl (fun st c => (attempt_trade cfg c.env c.today c.price st).1) s

/-! ### Helper lemmas about the trade engine -/

lemma reset_same_day (s : TradeStats) : reset_if_new_day s.date s = s := by
  simp [reset_if_new_day]

lemma log_pnl_fst_used (cfg : EngineConfig) (acct : Option (ℚ × ℚ)) (fileOk : Bool)
    (s : TradeStats) : (log_pnl cfg acct fileOk s).1.used_capital = s.used_capital := by
  unfold log_pnl
  rcases acct with _ | ⟨e, l⟩ <;> split <;> simp <;> split <;> rfl

lemma log_pnl_fst_trades (cfg : EngineConfig) (acct : Option (ℚ × ℚ)) (fileOk : Bool)
    (s : TradeStats) : (log_pnl cfg acct fileOk s).1.trades = s.trades := by
  unfold log_pnl
  rcases acct with _ | ⟨e, l⟩ <;> split <;> simp <;> split <;> rfl

lemma log_pnl_stopped_mono (cfg : EngineConfig) (acct : Option (ℚ × ℚ)) (fileOk : Bool)
    (s : TradeStats) (h : s.stopped = true) :
    (log_pnl cfg acct fileOk s).1.stopped = true := by
  unfold log_pnl
  rcases acct with _ | ⟨e, l⟩ <;> split <;> simp [h] <;> split <;> simp [h]

lemma can_trade_none_bounds {cfg : EngineConfig} {p : Option ℕ} {tv : ℚ} {s : TradeStats}
    (h : can_trade cfg p tv s = none) :
    s.stopped = false ∧ s.trades < cfg.max_trades ∧ s.used_capital + tv ≤ cfg.daily_budget := by
  unfold can_trade at h
  by_cases h1 : s.stopped
  · simp [h1] at h
  · by_cases h2 : cfg.max_trades ≤ s.trades
    · simp [h1, h2] at h
    · by_cases h3 : cfg.daily_budget < s.used_capital + tv
      · simp [h1, h2, h3] at h
      · exact ⟨by simpa using h1, by omega, by linarith [not_lt.mp h3]⟩

lemma can_trade_stopped {cfg : EngineConfig} {p : Option ℕ} {tv : ℚ} {s : TradeStats}
    (h : s.stopped = true) : can_trade cfg p tv s = some .haltedReject := by
  unfold can_trade
  simp [h]

lemma can_trade_some_shape {cfg : EngineConfig} {p : Option ℕ} {tv : ℚ} {s : TradeStats}
    {rej : TradeOutcome} (h : can_trade cfg p tv s = some rej) :
    rej = .haltedReject ∨ rej = .maxTradesReject ∨ rej = .dailyLimitReject ∨
      rej = .maxPositionsReject := by
  unfold can_trade at h
  split_ifs at h <;>
    first
      | (simp at h; tauto)
      | (rcases p with _ | n <;> simp at h <;> tauto)

lemma attempt_trade_no_api {cfg : EngineConfig} (env : BrokerEnv) (today : ℕ)
    (price : ℚ) (s : TradeStats) (h : cfg.hasApi = false) :
    attempt_trade cfg env today price s = (reset_if_new_day today s, .simulated, none) := by
  simp [attempt_trade, h]

lemma attempt_trade_per_trade {cfg : EngineConfig} (env : BrokerEnv) (today : ℕ)
    (price : ℚ) (s : TradeStats) (h : cfg.hasApi = true)
    (hpt : qtyOf cfg price ≤ 0 ∨ cfg.per_trade_budget < tradeValueOf cfg price) :
    attempt_trade cfg env today price s = (reset_if_new_day today s, .perTradeReject, none) := by
  simp [attempt_trade, h, hpt]

lemma attempt_trade_rejected {cfg : EngineConfig} {env : BrokerEnv} {today : ℕ}
    {price : ℚ} {s : TradeStats} {rej : TradeOutcome} (h : cfg.hasApi = true)
    (hpt : ¬(qtyOf cfg price ≤ 0 ∨ cfg.per_trade_budget < tradeValueOf cfg price))
    (hct : can_trade cfg env.positions (tradeValueOf cfg price)
             (reset_if_new_day today s) = some rej) :
    attempt_trade cfg env today price s = (reset_if_new_day today s, rej, none) := by
  simp [attempt_trade, h, hpt, hct]

lemma attempt_trade_submit_fail {cfg : EngineConfig} {env : BrokerEnv} {today : ℕ}
    {price : ℚ} {s : TradeStats} (h : cfg.hasApi = true)
    (hpt : ¬(qtyOf cfg price ≤ 0 ∨ cfg.per_trade_budget < tradeValueOf cfg price))
    (hct : can_trade cfg env.positions (tradeValueOf cfg price)
             (reset_if_new_day today s) = none)
    (hsub : env.submitOk = false) :
    attempt_trade cfg env today price s =
      (reset_if_new_day today s, .submitError env.submitErrMsg, none) := by
  simp [attempt_trade, h, hpt, hct, hsub]

lemma attempt_trade_success {cfg : EngineConfig} {env : BrokerEnv} {today : ℕ}
    {price : ℚ} {s : TradeStats} (h : cfg.hasApi = true)
    (hpt : ¬(qtyOf cfg price ≤ 0 ∨ cfg.per_trade_budget < tradeValueOf cfg price))
    (hct : can_trade cfg env.positions (tradeValueOf cfg price)
             (reset_if_new_day today s) = none)
    (hsub : env.submitOk = true) :
    attempt_trade cfg env today price s =
      ((log_pnl cfg env.account env.fileOk
          (fillStats cfg price (reset_if_new_day today s))).1,
       .orderPlaced (qtyOf cfg price) price
         (round2 (price * (1 + cfg.take_profit)))
         (round2 (price * (1 - cfg.stop_loss))),
       (log_pnl cfg env.account env.fileOk
          (fillStats cfg price (reset_if_new_day today s))).2) := by
  simp [attempt_trade, h, hpt, hct, hsub]

/-- Master case analysis of `attempt_trade`: the five mutually exclusive
paths of the source (simulated, per-trade rejection, `_can_trade`
rejection, submission failure, successful fill). -/
lemma attempt_trade_spec (cfg : EngineConfig) (env : BrokerEnv) (today : ℕ)
    (price : ℚ) (s : TradeStats) :
    (cfg.hasApi = false ∧
      attempt_trade cfg env today price s = (reset_if_new_day today s, .simulated, none)) ∨
    (cfg.hasApi = true ∧
      (qtyOf cfg price ≤ 0 ∨ cfg.per_trade_budget < tradeValueOf cfg price) ∧
      attempt_trade cfg env today price s = (reset_if_new_day today s, .perTradeReject, none)) ∨
    (∃ rej, cfg.hasApi = true ∧
      ¬(qtyOf cfg price ≤ 0 ∨ cfg.per_trade_budget < tradeValueOf cfg price) ∧
      can_trade cfg env.positions (tradeValueOf cfg price) (reset_if_new_day today s) = some rej ∧
      attempt_trade cfg env today price s = (reset_if_new_day today s, rej, none)) ∨
    (cfg.hasApi = true ∧
      ¬(qtyOf cfg price ≤ 0 ∨ cfg.per_trade_budget < tradeValueOf cfg price) ∧
      can_trade cfg env.positions (tradeValueOf cfg price) (reset_if_new_day today s) = none ∧
      env.submitOk = false ∧
      attempt_trade cfg env today price s =
        (reset_if_new_day today s, .submitError env.submitErrMsg, none)) ∨
    (cfg.hasApi = true ∧
      ¬(qtyOf cfg price ≤ 0 ∨ cfg.per_trade_budget < tradeValueOf cfg price) ∧
      can_trade cfg env.positions (tradeValueOf cfg price) (reset_if_new_day today s) = none ∧
      env.submitOk = true ∧
      attempt_trade cfg env today price s =
        ((log_pnl cfg env.account env.fileOk
            (fillStats cfg price (reset_if_new_day today s))).1,
         .orderPlaced (qtyOf cfg price) price
           (round2 (price * (1 + cfg.take_profit)))
           (round2 (price * (1 - cfg.stop_loss))),
         (log_pnl cfg env.account env.fileOk
            (fillStats cfg price (reset_if_new_day today s))).2)) := by
  by_cases hapi : cfg.hasApi = false
  · left; exact ⟨hapi, attempt_trade_no_api env today price s hapi⟩
  · have hapi' : cfg.hasApi = true := by simpa using hapi
    by_cases hpt : qtyOf cfg price ≤ 0 ∨ cfg.per_trade_budget < tradeValueOf cfg price
    · right; left; exact ⟨hapi', hpt, attempt_trade_per_trade env today price s hapi' hpt⟩
    · cases hct : can_trade cfg env.positions (tradeValueOf cfg price)
          (reset_if_new_day today s) with
      | some rej =>
          right; right; left
          exact ⟨rej, hapi', hpt, rfl, attempt_trade_rejected hapi' hpt hct⟩
      | none =>
          by_cases hsub : env.submitOk = false
          · right; right; right; left
            exact ⟨hapi', hpt, rfl, hsub, attempt_trade_submit_fail hapi' hpt hct hsub⟩
          · have hsub' : env.submitOk = true := by simpa using hsub
            right; right; right; right
            exact ⟨hapi', hpt, rfl, hsub', attempt_trade_success hapi' hpt hct hsub'⟩

lemma reset_invariants {cfg : EngineConfig} {s : TradeStats} (today : ℕ)
    (hb : 0 ≤ cfg.daily_budget)
    (hu : s.used_capital ≤ cfg.daily_budget) (ht : s.trades ≤ cfg.max_trades) :
    (reset_if_new_day today s).used_capital ≤ cfg.daily_budget ∧
    (reset_if_new_day today s).trades ≤ cfg.max_trades := by
  unfold reset_if_new_day initStats
  split
  · exact ⟨by simpa using hb, by simp⟩
  · exact ⟨hu, ht⟩

lemma statsInv_step (cfg : EngineConfig) (env : BrokerEnv) (today : ℕ) (price : ℚ)
    (s : TradeStats) (hb : 0 ≤ cfg.daily_budget)
    (hu : s.used_capital ≤ cfg.daily_budget) (ht : s.trades ≤ cfg.max_trades) :
    (attempt_trade cfg env today price s).1.used_capital ≤ cfg.daily_budget ∧
    (attempt_trade cfg env today price s).1.trades ≤ cfg.max_trades := by
  obtain ⟨h0u, h0t⟩ := @reset_invariants cfg s today hb hu ht
  rcases attempt_trade_spec cfg env today price s with
    ⟨_, he⟩ | ⟨_, _, he⟩ | ⟨rej, _, _, _, he⟩ | ⟨_, _, _, _, he⟩ | ⟨_, _, hct, _, he⟩
  · rw [he]; exact ⟨h0u, h0t⟩
  · rw [he]; exact ⟨h0u, h0t⟩
  · rw [he]; exact ⟨h0u, h0t⟩
  · rw [he]; exact ⟨h0u, h0t⟩
  · rw [he]
    obtain ⟨-, hlt, hle⟩ := can_trade_none_bounds hct
    constructor
    · rw [log_pnl_fst_used]
      simpa [fillStats] using hle
    · rw [log_pnl_fst_trades]
      simp only [fillStats]
      omega

lemma statsInv_run (cfg : EngineConfig) (hb : 0 ≤ cfg.daily_budget) :
    ∀ (calls : List CallInput) (s : TradeStats),
      s.used_capital ≤ cfg.daily_budget → s.trades ≤ cfg.max_trades →
      (runTrades cfg calls s).used_capital ≤ cfg.daily_budget ∧
      (runTrades cfg calls s).trades ≤ cfg.max_trades
  | [], _, hu, ht => ⟨hu, ht⟩
  | c :: rest, s, hu, ht => by
      have h := statsInv_step cfg c.env c.today c.price s hb hu ht
      exact statsInv_run cfg hb rest (attempt_trade cfg c.env c.today c.price s).1 h.1 h.2

/-! ### Concrete instances used by the witness theorems -/

/-- A sample engine configuration with credentials present:
daily budget 100, per-trade budget 50, at most 5 trades and 3 positions,
10% stop loss, 20% take profit, 50% drawdown limit. -/
def cfgW : EngineConfig :=
  { daily_budget := 100, per_trade_budget := 50, max_trades := 5,
    stop_loss := 1/10, take_profit := 1/5, max_positions := 3,
    drawdown_limit_percent := 1/2, hasApi := true }

/-- A benign brokerage environment: no open positions, submission and
journal write succeed, flat account equity. -/
def envW : BrokerEnv :=
  { positions := some 0, submitOk := true, submitErrMsg := "",
    account := some (1000, 1000), fileOk := true }

/-- A same-day statistics dict with the drawdown halt tripped. -/
def sHalted : TradeStats :=
  { date := 0, used_capital := 0, trades := 0, pnl := -80, stopped := true }

/-! ## Claim theorems -/

/-- C1: across any sequence of `attempt_trade` calls, `used_capital` never
exceeds `daily_budget` and `trades` never exceeds `max_trades`; moreover a
same-day call arriving with `trades ≥ max_trades`, or whose notional would
push `used_capital` over `daily_budget`, leaves the statistics dict
unchanged and places no order. -/
theorem attempt_trade_budget_and_count_invariants (cfg : EngineConfig)
    (s : TradeStats) (hb : 0 ≤ cfg.daily_budget)
    (hu : s.used_capital ≤ cfg.daily_budget) (ht : s.trades ≤ cfg.max_trades) :
    (∀ calls : List CallInput,
      (runTrades cfg calls s).used_capital ≤ cfg.daily_budget ∧
      (runTrades cfg calls s).trades ≤ cfg.max_trades) ∧
    (∀ (env : BrokerEnv) (price : ℚ), cfg.hasApi = true →
      (cfg.max_trades ≤ s.trades ∨
        cfg.daily_budget < s.used_capital + tradeValueOf cfg price) →
      (attempt_trade cfg env s.date price s).1 = s ∧
      (attempt_trade cfg env s.date price s).2.1.isOrderPlaced = false) := by
  constructor
  · intro calls
    exact statsInv_run cfg hb calls s hu ht
  · intro env price hapi hover
    rcases attempt_trade_spec cfg env s.date price s with
      ⟨hf, _⟩ | ⟨_, _, he⟩ | ⟨rej, _, _, hct, he⟩ | ⟨_, _, hct, _, _⟩ | ⟨_, _, hct, _, _⟩
    · rw [hapi] at hf; exact absurd hf (by simp)
    · rw [reset_same_day] at he
      rw [he]
      exact ⟨rfl, rfl⟩
    · rw [reset_same_day] at he hct
      rw [he]
      refine ⟨rfl, ?_⟩
      rcases can_trade_some_shape hct with h | h | h | h <;> rw [h] <;> rfl
    · rw [reset_same_day] at hct
      obtain ⟨-, hlt, hle⟩ := can_trade_none_bounds hct
      rcases hover with h | h
      · omega
      · linarith
    · rw [reset_same_day] at hct
      obtain ⟨-, hlt, hle⟩ := can_trade_none_bounds hct
      rcases hover with h | h
      · omega
      · linarith

/-- Witness for C1 at the sample configuration: one successful call from a
fresh day keeps both invariants. -/
theorem attempt_trade_budget_and_count_invariants_witness :
    (runTrades cfgW [⟨envW, 0, 10⟩] (initStats 0)).used_capital ≤ cfgW.daily_budget ∧
    (runTrades cfgW [⟨envW, 0, 10⟩] (initStats 0)).trades ≤ cfgW.max_trades :=
  (attempt_trade_budget_and_count_invariants cfgW (initStats 0)
    (by norm_num [cfgW]) (by norm_num [initStats, cfgW])
    (by norm_num [initStats, cfgW])).1 [⟨envW, 0, 10⟩]

/-- C2 counterexample: with the halt flag set, a same-day call whose
notional exceeds the per-trade budget (price 1000, per-trade budget 50) is
rejected with the per-trade-budget reason, not the halted reason, because
`attempt_trade` sizes the position before calling `_can_trade`. -/
theorem halted_engine_not_always_halted_reason :
    (attempt_trade cfgW envW 0 1000 sHalted).2.1 = .perTradeReject ∧
    (attempt_trade cfgW envW 0 1000 sHalted).2.1 ≠ .haltedReject ∧
    (attempt_trade cfgW envW 0 1000 sHalted).2.1.reason =
      some "Trade value exceeds per-trade budget" := by
  have hq : qtyOf cfgW 1000 = 1 := by
    unfold qtyOf cfgW
    norm_num [Int.floor_eq_iff]
  have hpt : qtyOf cfgW 1000 ≤ 0 ∨ cfgW.per_trade_budget < tradeValueOf cfgW 1000 := by
    right
    rw [tradeValueOf, hq]
    norm_num [cfgW]
  have he := attempt_trade_per_trade envW 0 1000 sHalted rfl hpt
  rw [he]
  exact ⟨rfl, by simp, rfl⟩

/-- C2 amended: once the stopped flag is set, every same-day
`attempt_trade` call leaves the statistics dict unchanged (so the flag
stays set) and places no order; the call is rejected with the halted
reason whenever credentials exist and the per-trade sizing check passes
(otherwise the per-trade or simulated result is returned first); `_log_pnl`
never clears the flag, and sets it when realized PnL drops below
`-daily_budget * drawdown_limit_percent`; only a day-rollover reset seeing
a different date clears the flag. -/
theorem halted_engine_rejects_until_rollover (cfg : EngineConfig)
    (env : BrokerEnv) (price : ℚ) (s : TradeStats) (hs : s.stopped = true) :
    ((attempt_trade cfg env s.date price s).1 = s ∧
      (attempt_trade cfg env s.date price s).2.1.isOrderPlaced = false) ∧
    (cfg.hasApi = true →
      ¬(qtyOf cfg price ≤ 0 ∨ cfg.per_trade_budget < tradeValueOf cfg price) →
      (attempt_trade cfg env s.date price s).2.1 = .haltedReject) ∧
    (∀ (acct : Option (ℚ × ℚ)) (fileOk : Bool),
      (log_pnl cfg acct fileOk s).1.stopped = true) ∧
    (∀ (s1 : TradeStats) (equity lastEquity : ℚ) (fileOk : Bool),
      cfg.hasApi = true →
      equity - lastEquity < -cfg.daily_budget * cfg.drawdown_limit_percent →
      (log_pnl cfg (some (equity, lastEquity)) fileOk s1).1.stopped = true) ∧
    (∀ today : ℕ, (reset_if_new_day today s).stopped = true ↔ today = s.date) := by
  have hct : can_trade cfg env.positions (tradeValueOf cfg price)
      (reset_if_new_day s.date s) = some .haltedReject := by
    rw [reset_same_day]
    exact can_trade_stopped hs
  refine ⟨?_, ?_, ?_, ?_, ?_⟩
  · rcases attempt_trade_spec cfg env s.date price s with
      ⟨_, he⟩ | ⟨_, _, he⟩ | ⟨rej, _, _, hct2, he⟩ | ⟨_, _, hct2, _, _⟩ | ⟨_, _, hct2, _, _⟩
    · rw [reset_same_day] at he; rw [he]; exact ⟨rfl, rfl⟩
    · rw [reset_same_day] at he; rw [he]; exact ⟨rfl, rfl⟩
    · rw [reset_same_day] at he hct2
      rw [he]
      refine ⟨rfl, ?_⟩
      rcases can_trade_some_shape hct2 with h | h | h | h <;> rw [h] <;> rfl
    · rw [hct] at hct2; exact absurd hct2 (by simp)
    · rw [hct] at hct2; exact absurd hct2 (by simp)
  · intro hapi hpt
    have he := attempt_trade_rejected hapi hpt hct
    rw [he]
  · intro acct fileOk
    exact log_pnl_stopped_mono cfg acct fileOk s hs
  · intro s1 equity lastEquity fileOk hapi hdd
    unfold log_pnl
    rw [neg_mul] at hdd
    simp [hapi, hdd]
  · intro today
    unfold reset_if_new_day initStats
    constructor
    · intro h
      by_contra hne
      have : s.date ≠ today := fun h2 => hne h2.symm
      simp [this] at h
    · intro h
      subst h
      simpa using hs

/-- Witness for C2 at the sample halted state: a same-day call at an
affordable price is rejected with the halted reason and the flag stays. -/
theorem halted_engine_rejects_until_rollover_witness :
    ((attempt_trade cfgW envW sHalted.date 10 sHalted).1 = sHalted ∧
      (attempt_trade cfgW envW sHalted.date 10 sHalted).2.1.isOrderPlaced = false) ∧
    (cfgW.hasApi = true →
      ¬(qtyOf cfgW 10 ≤ 0 ∨ cfgW.per_trade_budget < tradeValueOf cfgW 10) →
      (attempt_trade cfgW envW sHalted.date 10 sHalted).2.1 = .haltedReject) ∧
    (∀ (acct : Option (ℚ × ℚ)) (fileOk : Bool),
      (log_pnl cfgW acct fileOk sHalted).1.stopped = true) ∧
    (∀ (s1 : TradeStats) (equity lastEquity : ℚ) (fileOk : Bool),
      cfgW.hasApi = true →
      equity - lastEquity < -cfgW.daily_budget * cfgW.drawdown_limit_percent →
      (log_pnl cfgW (some (equity, lastEquity)) fileOk s1).1.stopped = true) ∧
    (∀ today : ℕ, (reset_if_new_day today sHalted).stopped = true ↔ today = sHalted.date) :=
  halted_engine_rejects_until_rollover cfgW envW 10 sHalted rfl

/-- A brokerage environment whose `submit_order` raises with message
`"order rejected"`. -/
def envFail : BrokerEnv :=
  { positions := some 0, submitOk := false, submitErrMsg := "order rejected",
    account := some (1000, 1000), fileOk := true }

/-- C3: when `submit_order` raises inside a same-day `attempt_trade` call
that reached submission, the statistics dict is unchanged, no journal line
is written, and the result is the non-fatal error dict carrying the
brokerage message. -/
theorem submit_failure_no_mutation (cfg : EngineConfig) (env : BrokerEnv)
    (price : ℚ) (s : TradeStats) (hapi : cfg.hasApi = true)
    (hpt : ¬(qtyOf cfg price ≤ 0 ∨ cfg.per_trade_budget < tradeValueOf cfg price))
    (hct : can_trade cfg env.positions (tradeValueOf cfg price) s = none)
    (hsub : env.submitOk = false) :
    attempt_trade cfg env s.date price s = (s, .submitError env.submitErrMsg, none) := by
  have hct0 : can_trade cfg env.positions (tradeValueOf cfg price)
      (reset_if_new_day s.date s) = none := by
    rw [reset_same_day]; exact hct
  have he := attempt_trade_submit_fail hapi hpt hct0 hsub
  rw [reset_same_day] at he
  exact he

/-- Witness for C3: a fresh-day call at price 10 under the sample
configuration, with the brokerage submission failing. -/
theorem submit_failure_no_mutation_witness :
    attempt_trade cfgW envFail (initStats 0).date 10 (initStats 0) =
      (initStats 0, .submitError envFail.submitErrMsg, none) :=
  submit_failure_no_mutation cfgW envFail 10 (initStats 0) rfl
    (by norm_num [qtyOf, tradeValueOf, cfgW, Int.floor_eq_iff])
    (by norm_num [can_trade, qtyOf, tradeValueOf, cfgW, envFail, initStats,
          Int.floor_eq_iff])
    rfl

/-- The sample configuration with the claim's per-trade budget of 500. -/
def cfg500 : EngineConfig := { cfgW with per_trade_budget := 500 }

/-- C4: the position size is `qty = max(1, floor(per_trade_budget /
price))`, and a trade whose notional `price * qty` exceeds
`per_trade_budget` is rejected identically for every brokerage
environment — before any brokerage call — leaving only the day-rollover
applied to the statistics dict. -/
theorem per_trade_sizing_and_rejection (cfg : EngineConfig) (price : ℚ)
    (hapi : cfg.hasApi = true)
    (hover : cfg.per_trade_budget <
      price * ((max 1 ⌊cfg.per_trade_budget / price⌋ : ℤ) : ℚ)) :
    qtyOf cfg price = max 1 ⌊cfg.per_trade_budget / price⌋ ∧
    ∀ (env : BrokerEnv) (today : ℕ) (s : TradeStats),
      attempt_trade cfg env today price s =
        (reset_if_new_day today s, .perTradeReject, none) := by
  refine ⟨rfl, ?_⟩
  intro env today s
  exact attempt_trade_per_trade env today price s hapi (Or.inr hover)

/-- Witness for C4, the spec's scenario: price 1000 with per-trade budget
500 gives `qty = 1` and a per-trade rejection with no state change. -/
theorem per_trade_sizing_and_rejection_witness :
    qtyOf cfg500 1000 = 1 ∧
    attempt_trade cfg500 envW 0 1000 (initStats 0) =
      (initStats 0, .perTradeReject, none) := by
  constructor
  · norm_num [qtyOf, cfg500, cfgW, Int.floor_eq_iff]
  · have h := (per_trade_sizing_and_rejection cfg500 1000 rfl
      (by norm_num [cfg500, cfgW, Int.floor_eq_iff])).2 envW 0 (initStats 0)
    rw [h]
    simp [reset_if_new_day, initStats]

/-- The sample configuration allowing zero concurrent positions. -/
def cfg0pos : EngineConfig := { cfgW with max_positions := 0 }

/-- A brokerage environment whose `list_positions` raises. -/
def envPosFail : BrokerEnv :=
  { positions := none, submitOk := true, submitErrMsg := "",
    account := some (1000, 1000), fileOk := true }

/-- C9: when `list_positions` raises, `_can_trade` skips the max-positions
check entirely (it returns no rejection whatever `max_positions` is — even
0, which every actual open-position count reaches), and the trade is
accepted and submitted. -/
theorem positions_exception_skips_check (cfg : EngineConfig) (env : BrokerEnv)
    (price : ℚ) (s : TradeStats)
    (hapi : cfg.hasApi = true) (hpos : env.positions = none)
    (hsub : env.submitOk = true)
    (hstop : s.stopped = false) (htr : s.trades < cfg.max_trades)
    (hcap : s.used_capital + tradeValueOf cfg price ≤ cfg.daily_budget)
    (hpt : ¬(qtyOf cfg price ≤ 0 ∨ cfg.per_trade_budget < tradeValueOf cfg price)) :
    can_trade cfg env.positions (tradeValueOf cfg price) s = none ∧
    (attempt_trade cfg env s.date price s).2.1.isOrderPlaced = true ∧
    (attempt_trade cfg env s.date price s).1.trades = s.trades + 1 := by
  have hct : can_trade cfg env.positions (tradeValueOf cfg price) s = none := by
    unfold can_trade
    rw [hpos, if_neg (by simp [hstop]), if_neg (not_le.mpr htr),
      if_neg (not_lt.mpr hcap), if_pos hapi]
  refine ⟨hct, ?_⟩
  have hct0 : can_trade cfg env.positions (tradeValueOf cfg price)
      (reset_if_new_day s.date s) = none := by
    rw [reset_same_day]; exact hct
  have he := attempt_trade_success hapi hpt hct0 hsub
  rw [reset_same_day] at he
  rw [he]
  refine ⟨rfl, ?_⟩
  rw [log_pnl_fst_trades]
  simp [fillStats]

/-- Witness for C9: with `max_positions = 0` and `list_positions` raising,
a fresh-day trade at price 10 is still accepted and counted. -/
theorem positions_exception_skips_check_witness :
    can_trade cfg0pos envPosFail.positions (tradeValueOf cfg0pos 10) (initStats 0) = none ∧
    (attempt_trade cfg0pos envPosFail (initStats 0).date 10 (initStats 0)).2.1.isOrderPlaced
      = true ∧
    (attempt_trade cfg0pos envPosFail (initStats 0).date 10 (initStats 0)).1.trades =
      (initStats 0).trades + 1 :=
  positions_exception_skips_check cfg0pos envPosFail 10 (initStats 0) rfl rfl rfl rfl
    (by norm_num [cfg0pos, cfgW, initStats])
    (by norm_num [tradeValueOf, qtyOf, cfg0pos, cfgW, initStats, Int.floor_eq_iff])
    (by norm_num [tradeValueOf, qtyOf, cfg0pos, cfgW, Int.floor_eq_iff])

/-- The sample configuration without Alpaca credentials. -/
def cfgNoApi : EngineConfig := { cfgW with hasApi := false }

/-- C10: with no Alpaca credentials, every `attempt_trade` call returns
the simulated result for every brokerage environment, price and state —
no budget, count, position or halt check influences it — and the
statistics dict is left exactly as the day-rollover reset leaves it. -/
theorem no_credentials_simulated (cfg : EngineConfig) (hapi : cfg.hasApi = false) :
    ∀ (env : BrokerEnv) (today : ℕ) (price : ℚ) (s : TradeStats),
      attempt_trade cfg env today price s = (reset_if_new_day today s, .simulated, none) :=
  fun env today price s => attempt_trade_no_api env today price s hapi

/-- Witness for C10: even a halted, same-configuration state yields the
simulated result (and the rollover to day 1 still runs). -/
theorem no_credentials_simulated_witness :
    attempt_trade cfgNoApi envW 1 10 sHalted = (reset_if_new_day 1 sHalted, .simulated, none) :=
  no_credentials_simulated cfgNoApi rfl envW 1 10 sHalted

/-! ## Market data layer (src/data_sources.py) -/

/-- A normalized quote dict as built by the provider fetchers.  `pe_ratio`
may be absent; `volume` is `None` exactly when its text parsed to `None`. -/
structure Quote where
  price : ℚ
  market_cap : ℚ
  pe_ratio : Option ℚ
  volume : Option ℚ
deriving DecidableEq, Repr

/-- Digit-string accumulator for the decimal parser. -/
def digitsValAux (acc : ℕ) : List Char → Option ℕ
  | [] => some acc
  | c :: cs => if c.isDigit then digitsValAux (acc * 10 + (c.toNat - 48)) cs else none

def digitsVal (l : List Char) : Option ℕ := digitsValAux 0 l

/-- Python `float(s)` restricted to the plain decimal literals the Finviz
snapshot table carries: optional sign, integer digits, optional fraction.
Exponents and special values are outside the modelled input space. -/
def parseDecimal (s : String) : Option ℚ :=
  let cs := s.toList
  let sign : ℚ := if cs.head? = some '-' then -1 else 1
  let rest := if cs.head? = some '-' ∨ cs.head? = some '+' then cs.drop 1 else cs
  let intPart := rest.takeWhile Char.isDigit
  let rest2 := rest.drop intPart.length
  match rest2 with
  | [] =>
      if intPart.isEmpty then none
      else (digitsVal intPart).map (fun n => sign * n)
  | '.' :: fracCs =>
      let fracPart := fracCs.takeWhile Char.isDigit
      if fracCs.length ≠ fracPart.length then none
      else if intPart.isEmpty ∧ fracPart.isEmpty then none
      else
        match digitsVal intPart, digitsVal fracPart with
        | some i, some f => some (sign * ((i : ℚ) + (f : ℚ) / (10 ^ fracPart.length)))
        | _, _ => none
  | _ => none

/-- `_parse_float` of `_fetch_finviz`: strip commas, apply a K/M/B suffix
multiplier, else parse the whole string.  `.error` models an exception
escaping `_parse_float` (IndexError on an empty stripped string, or
ValueError from `float(value[:-1])` on the suffix path, which the inner
`try` does not catch); `.ok none` models the caught ValueError returning
`None`. -/
def parse_float (value : String) : Except Unit (Option ℚ) :=
  let v := (value.toList.filter (fun c => c ≠ ','))
  match v.getLast? with
  | none => .error ()
  | some suffix =>
      let mult : Option ℚ :=
        if suffix = 'K' then some 1000
        else if suffix = 'M' then some 1000000
        else if suffix = 'B' then some 1000000000
        else none
      match mult with
      | some m =>
          match parseDecimal (String.mk v.dropLast) with
          | some x => .ok (some (x * m))
          | none => .error ()
      | none => .ok (parseDecimal (String.mk v))

/-- Python truthiness of an optional string (`None` or `""` are falsy). -/
def strFalsy : Option String → Bool
  | none => true
  | some s => s.isEmpty

/-- The normalization core of `_fetch_finviz` (lines 143–177 of
src/data_sources.py), applied to the snapshot-table texts for `Price`,
`Market Cap`, `P/E` and `Volume`: return `None` unless `Price` and
`Market Cap` are present (truthy), parse in source order, let any parse
exception escape to the outer handler (overall `None`), and gate only on
`price is None or mcap is None` — there is no sign check. -/
def fetch_finviz_core (price_text mcap_text pe_text volume_text : Option String) :
    Option Quote :=
  if strFalsy price_text ∨ strFalsy mcap_text then none
  else
    match parse_float (price_text.getD "") with
    | .error _ => none
    | .ok priceO =>
        match parse_float (mcap_text.getD "") with
        | .error _ => none
        | .ok mcapO =>
            match (if strFalsy pe_text then Except.ok none
                   else parse_float (pe_text.getD "")) with
            | .error _ => none
            | .ok peO =>
                match (if strFalsy volume_text then Except.ok (some (0 : ℚ))
                       else parse_float (volume_text.getD "")) with
                | .error _ => none
                | .ok volO =>
                    match priceO, mcapO with
                    | some p, some m => some ⟨p, m, peO, volO⟩
                    | _, _ => none

/-- One `_FUNDAMENTAL_CACHE` entry for a symbol. -/
structure CacheEntry where
  data : Quote
  timestamp : ℚ
deriving DecidableEq, Repr

/-- Outcomes of the four provider attempts inside one `fetch_fundamentals`
call (`none` models a raised `DataFetchError` or a `None` return). -/
structure ProviderEnv where
  yahoo : Option Quote
  finviz : Option Quote
  stockdata : Option Quote
  yahoo_quote : Option Quote
deriving DecidableEq, Repr

def CACHE_TTL_SECONDS : ℚ := 300

/-- The provider-fallback chain of `fetch_fundamentals` once the cache
check has failed: first success is cached (timestamped `now`) and
returned; exhaustion returns `None` leaving the cache entry as it was. -/
def fetch_providers (cache : Option CacheEntry) (now : ℚ) (env : ProviderEnv) :
    Option Quote × Option CacheEntry :=
  match env.yahoo with
  | some q => (some q, some ⟨q, now⟩)
  | none =>
      match env.finviz with
      | some q => (some q, some ⟨q, now⟩)
      | none =>
          match env.stockdata with
          | some q => (some q, some ⟨q, now⟩)
          | none =>
              match env.yahoo_quote with
              | some q => (some q, some ⟨q, now⟩)
              | none => (none, cache)

/-- `fetch_fundamentals` for one symbol: fresh cache hit short-circuits,
otherwise the provider chain runs.  Returns the result and the cache entry
for the symbol after the call. -/
def fetch_fundamentals (cache : Option CacheEntry) (now : ℚ) (env : ProviderEnv) :
    Option Quote × Option CacheEntry :=
  match cache with
  | some c =>
      if now - c.timestamp < CACHE_TTL_SECONDS then (some c.data, some c)
      else fetch_providers cache now env
  | none => fetch_providers cache now env

def CHART_COOLDOWN_SECONDS : ℚ := 300

/-- `_mark_rate_limited`: the cooldown deadline written into the
process-wide rate-limit state. -/
def mark_rate_limited (now : ℚ) (multiplier : ℕ) : ℚ :=
  now + CHART_COOLDOWN_SECONDS * multiplier

/-- What the underlying `yf.download` call does on one attempt:
returns a usable frame (`ok`), a frame that is empty after `dropna`
(`okEmptyAfterDropna`), returns `None`/an empty frame (`emptyFrame`),
raises an exception whose message contains "429"/"Too Many Requests"
(`exc429`), or raises any other exception (`excOther`). -/
inductive DownloadOutcome where
  | ok
  | okEmptyAfterDropna
  | emptyFrame
  | exc429
  | excOther
deriving DecidableEq, Repr

/-- Process state threaded through one `get_price_history` call: the
clock and the process-wide `_rate_limited_until` deadline.  Network and
processing delays are idealized to zero; only the explicit cooling-off
`time.sleep` advances the clock. -/
structure HistState where
  now : ℚ
  blockedUntil : ℚ
deriving DecidableEq, Repr

/-- `_is_rate_limited()` / `is_rate_limited()`. -/
def is_rate_limited (st : HistState) : Bool := st.now < st.blockedUntil

/-- One iteration of the `for attempt in range(3)` loop of
`get_price_history`: the cooling-off sleep, then `_download_yfinance`.
`_download_yfinance` wraps its body in `except Exception`, so every
failure — a 429 or `RetryError` included — escapes it as a
`DataFetchError`, after `_mark_rate_limited()` was called with its
default multiplier 1 when the message carried a 429 signal; the loop's
own `except RetryError`/`except HTTPError` doubling handlers can
therefore never run.  Returns the state afterwards, whether a frame was
returned, and the multipliers passed to `_mark_rate_limited`. -/
def history_attempt (st : HistState) (o : DownloadOutcome) :
    HistState × Bool × List ℕ :=
  let st1 : HistState :=
    if is_rate_limited st then
      { st with now :=
          st.now + min (max 0 (st.blockedUntil - st.now)) CHART_COOLDOWN_SECONDS }
    else st
  if is_rate_limited st1 then (st1, false, [])
  else
    match o with
    | .ok => (st1, true, [])
    | .okEmptyAfterDropna => (st1, false, [])
    | .emptyFrame => (st1, false, [])
    | .exc429 => ({ st1 with blockedUntil := mark_rate_limited st1.now 1 }, false, [1])
    | .excOther => (st1, false, [])

/-- The whole attempt loop of `get_price_history` (fuel 3), collecting in
order every multiplier passed to `_mark_rate_limited` during the call. -/
def history_loop : ℕ → HistState → List DownloadOutcome → HistState × Bool × List ℕ
  | 0, st, _ => (st, false, [])
  | _ + 1, st, [] => (st, false, [])
  | n + 1, st, o :: rest =>
      let r := history_attempt st o
      if r.2.1 = true then r
      else
        let next := history_loop n r.1 rest
        (next.1, next.2.1, r.2.2 ++ next.2.2)

/-- The rate-limit multipliers one `get_price_history` call writes,
starting from state `st` with the download outcomes `outcomes`. -/
def get_price_history_marks (st : HistState) (outcomes : List DownloadOutcome) : List ℕ :=
  (history_loop 3 st outcomes).2.2

/-! ### Helper lemmas about the market data layer -/

lemma finviz_some_price {pt mt pe vt : Option String} {q : Quote}
    (h : fetch_finviz_core pt mt pe vt = some q) :
    parse_float (pt.getD "") = .ok (some q.price) := by
  unfold fetch_finviz_core at h
  split at h
  · exact absurd h (by simp)
  · split at h
    · exact absurd h (by simp)
    · next priceO hp =>
        split at h
        · exact absurd h (by simp)
        · split at h
          · exact absurd h (by simp)
          · split at h
            · exact absurd h (by simp)
            · split at h
              · cases h
                exact hp
              · exact absurd h (by simp)

lemma fetch_result_cached {cache : Option CacheEntry} {now : ℚ} {env : ProviderEnv}
    {q : Quote} {c : CacheEntry}
    (h : fetch_fundamentals cache now env = (some q, some c)) : c.data = q := by
  have hp : ∀ cache2, fetch_providers cache2 now env = (some q, some c) → c.data = q := by
    intro cache2 h2
    unfold fetch_providers at h2
    rcases env with ⟨_ | qy, _ | qf, _ | qs, _ | qq⟩ <;>
      simp_all <;> (try obtain ⟨rfl, rfl⟩ := h2) <;> simp_all
  rcases cache with _ | c0
  · exact hp none h
  · rw [show fetch_fundamentals (some c0) now env =
        (if now - c0.timestamp < CACHE_TTL_SECONDS then (some c0.data, some c0)
         else fetch_providers (some c0) now env) from rfl] at h
    split at h
    · simp only [Prod.mk.injEq, Option.some.injEq] at h
      obtain ⟨rfl, rfl⟩ := h
      rfl
    · exact hp (some c0) h

lemma history_attempt_marks_shape (st : HistState) (o : DownloadOutcome) :
    (history_attempt st o).2.2 = [] ∨ (history_attempt st o).2.2 = [1] := by
  by_cases h1 : is_rate_limited st
  · unfold history_attempt
    rw [if_pos h1]
    by_cases h2 : is_rate_limited
        { st with now := st.now + min (max 0 (st.blockedUntil - st.now)) CHART_COOLDOWN_SECONDS }
    · rw [if_pos h2]
      left
      rfl
    · rw [if_neg h2]
      cases o <;> simp
  · unfold history_attempt
    rw [if_neg h1, if_neg h1]
    cases o <;> simp

lemma history_attempt_marks (st : HistState) (o : DownloadOutcome) :
    ∀ m ∈ (history_attempt st o).2.2, m = 1 := by
  intro m hm
  rcases history_attempt_marks_shape st o with h | h <;> rw [h] at hm <;> simp_all

lemma history_loop_marks :
    ∀ (n : ℕ) (st : HistState) (outcomes : List DownloadOutcome),
      ∀ m ∈ (history_loop n st outcomes).2.2, m = 1
  | 0, _, _ => by intro m hm; simp [history_loop] at hm
  | _ + 1, st, [] => by intro m hm; simp [history_loop] at hm
  | n + 1, st, o :: rest => by
      intro m hm
      simp only [history_loop] at hm
      split at hm
      · exact history_attempt_marks st o m hm
      · simp only [List.mem_append] at hm
        rcases hm with hm | hm
        · exact history_attempt_marks st o m hm
        · exact history_loop_marks n (history_attempt st o).1 rest m hm

/-- C5 counterexample: a Finviz snapshot whose `Price` cell is `"0"` (with
`Market Cap` `"5M"`) is normalized to a returned quote carrying the
non-positive price 0 — the gate checks only for `None`, not for sign. -/
theorem finviz_returns_nonpositive_price :
    fetch_finviz_core (some "0") (some "5M") none (some "100") =
      some ⟨0, 5000000, none, some 100⟩ ∧
    ¬(0 : ℚ) > 0 := by
  constructor
  · simp +decide [fetch_finviz_core, parse_float, parseDecimal, digitsVal,
      digitsValAux, strFalsy]
    norm_num
  · norm_num

/-- C5 amended: the Finviz normalizer returns `None` when the price field
is missing/empty, parses to `None`, or raises while parsing; a returned
quote carries exactly the parsed price value, with no positivity check
applied (so it may be ≤ 0). -/
theorem finviz_price_gate (pt mt pe vt : Option String) :
    fetch_finviz_core none mt pe vt = none ∧
    (parse_float (pt.getD "") = .ok none → fetch_finviz_core pt mt pe vt = none) ∧
    (∀ u : Unit, parse_float (pt.getD "") = .error u →
      fetch_finviz_core pt mt pe vt = none) ∧
    (∀ q : Quote, fetch_finviz_core pt mt pe vt = some q →
      parse_float (pt.getD "") = .ok (some q.price)) := by
  refine ⟨?_, ?_, ?_, ?_⟩
  · simp [fetch_finviz_core, strFalsy]
  · intro h
    rcases hf : fetch_finviz_core pt mt pe vt with _ | q
    · rfl
    · have hp := finviz_some_price hf
      rw [h] at hp
      exact absurd hp (by simp)
  · intro u h
    rcases hf : fetch_finviz_core pt mt pe vt with _ | q
    · rfl
    · have hp := finviz_some_price hf
      rw [h] at hp
      exact absurd hp (by simp)
  · intro q h
    exact finviz_some_price h

/-- A cached quote used by the staleness scenarios. -/
def qStale : Quote := ⟨1, 1000000, none, some 0⟩

/-- C6 counterexample: with a cached entry fetched at time 0 and all four
providers failing at time 1000 (entry 700 s past the 300 s TTL), the
fetch returns `None` — the stale cached entry is not served. -/
theorem stale_cache_not_served :
    fetch_fundamentals (some ⟨qStale, 0⟩) 1000 ⟨none, none, none, none⟩ =
      (none, some ⟨qStale, 0⟩) ∧
    (none : Option Quote) ≠ some qStale := by
  constructor
  · norm_num [fetch_fundamentals, fetch_providers, CACHE_TTL_SECONDS]
  · simp

/-- C6 amended: when every provider attempt fails and the cached entry
(if any) is at or past the TTL, `fetch_fundamentals` returns `None` and
leaves the cache entry unchanged — a stale entry is never served as a
fallback. -/
theorem providers_exhausted_returns_none (cache : Option CacheEntry) (now : ℚ)
    (env : ProviderEnv) (hy : env.yahoo = none) (hf : env.finviz = none)
    (hs : env.stockdata = none) (hq : env.yahoo_quote = none)
    (hstale : ∀ c : CacheEntry, cache = some c →
      CACHE_TTL_SECONDS ≤ now - c.timestamp) :
    fetch_fundamentals cache now env = (none, cache) := by
  have hp : fetch_providers cache now env = (none, cache) := by
    unfold fetch_providers
    rw [hy, hf, hs, hq]
  rcases cache with _ | c
  · exact hp
  · rw [show fetch_fundamentals (some c) now env =
        (if now - c.timestamp < CACHE_TTL_SECONDS then (some c.data, some c)
         else fetch_providers (some c) now env) from rfl]
    rw [if_neg (not_lt.mpr (hstale c rfl))]
    exact hp

/-- Witness for C6 (amended) at the concrete stale state of the
counterexample. -/
theorem providers_exhausted_returns_none_witness :
    fetch_fundamentals (some ⟨qStale, 0⟩) 1000 ⟨none, none, none, none⟩ =
      (none, some ⟨qStale, 0⟩) :=
  providers_exhausted_returns_none (some ⟨qStale, 0⟩) 1000 ⟨none, none, none, none⟩
    rfl rfl rfl rfl
    (by intro c hc; cases hc; norm_num [CACHE_TTL_SECONDS])

/-- C7 counterexample: three consecutive 429 signals (starting unblocked
at time 0) each write multiplier 1 — a fixed 300 s window, deadlines 300,
600 and 900 — never a doubled duration: `_download_yfinance` converts
every failure to `DataFetchError` after marking with its default
multiplier 1, so the doubling handlers of `get_price_history` never run. -/
theorem consecutive_429s_write_fixed_cooldown :
    get_price_history_marks ⟨0, 0⟩ [.exc429, .exc429, .exc429] = [1, 1, 1] ∧
    (history_loop 3 ⟨0, 0⟩ [.exc429, .exc429, .exc429]).1.blockedUntil = 900 ∧
    mark_rate_limited 0 1 = 300 ∧
    ¬(1 : ℕ) = 2 * 1 := by
  have h : history_loop 3 ⟨0, 0⟩ [.exc429, .exc429, .exc429] =
      (⟨600, 900⟩, false, [1, 1, 1]) := by
    norm_num [history_loop, history_attempt, is_rate_limited,
      mark_rate_limited, CHART_COOLDOWN_SECONDS]
  refine ⟨?_, ?_, ?_, by decide⟩
  · rw [get_price_history_marks, h]
  · rw [h]
  · norm_num [mark_rate_limited, CHART_COOLDOWN_SECONDS]

/-- C7 amended: every rate-limit signal reachable from
`get_price_history` writes one fixed base cooldown window —
`_mark_rate_limited` is only ever invoked with multiplier 1 (deadline
`now + 300`), for every starting state and every sequence of download
outcomes.  No doubling occurs and no multiplier state exists for a
success to reset: `_download_yfinance` re-raises every failure as
`DataFetchError`, leaving the loop's doubling handlers unreachable. -/
theorem cooldown_multiplier_always_one (st : HistState)
    (outcomes : List DownloadOutcome) :
    (∀ m ∈ get_price_history_marks st outcomes, m = 1) ∧
    (∀ now : ℚ, mark_rate_limited now 1 = now + 300) :=
  ⟨history_loop_marks 3 st outcomes, fun now => by
    rw [mark_rate_limited, CHART_COOLDOWN_SECONDS]
    norm_num⟩

/-- C8: a fresh cache hit returns the cached payload and entry untouched,
for every provider environment — the second of two fetches within the TTL
of the first successful one returns the identical payload and performs no
provider access, whatever the rate-limit state. -/
theorem quote_fetch_idempotent_within_ttl (cache : Option CacheEntry)
    (now1 now2 : ℚ) (env1 : ProviderEnv) (q : Quote) (c : CacheEntry)
    (h1 : fetch_fundamentals cache now1 env1 = (some q, some c))
    (httl : now2 - c.timestamp < CACHE_TTL_SECONDS) :
    ∀ env2 : ProviderEnv, fetch_fundamentals (some c) now2 env2 = (some q, some c) := by
  intro env2
  rw [show fetch_fundamentals (some c) now2 env2 =
      (if now2 - c.timestamp < CACHE_TTL_SECONDS then (some c.data, some c)
       else fetch_providers (some c) now2 env2) from rfl]
  rw [if_pos httl, fetch_result_cached h1]

/-- A quote served by the first provider in the C8 witness. -/
def qFresh : Quote := ⟨2, 1000000, none, some 500⟩

/-- Witness for C8: a successful fetch at time 0 followed 100 s later by
a fetch in an environment where every provider fails (e.g. rate limited)
still returns the identical payload from cache. -/
theorem quote_fetch_idempotent_within_ttl_witness :
    fetch_fundamentals (some ⟨qFresh, 0⟩) 100 ⟨none, none, none, none⟩ =
      (some qFresh, some ⟨qFresh, 0⟩) :=
  quote_fetch_idempotent_within_ttl none 0 100 ⟨some qFresh, none, none, none⟩
    qFresh ⟨qFresh, 0⟩ rfl (by norm_num [CACHE_TTL_SECONDS])
    ⟨none, none, none, none⟩

end Microcap
